import Mathlib

/-
Verification development for the LocalMind in-memory document index
(src/main.py).  The `DocumentStore` class and the API endpoints that drive
it are shallowly embedded as pure Lean functions: the Python dict of
documents becomes an insertion-ordered association list, mutation becomes
explicit state passing, wall-clock timestamps become a `now : Nat`
parameter, and the fallible delete endpoint returns `Except`.

Floating point and the natural logarithm.  The sklearn TfidfVectorizer
computes float weights `tf * idf` with `idf = ln((1+n)/(1+df)) + 1` and
scores them by cosine similarity.  The development is parametric in a
function `lnq : Q -> Q` standing for the natural logarithm (none of the
verified properties depend on the actual values of `ln`; where a property
needs a fact about `ln`, such as nonnegativity on inputs >= 1, it is taken
as a hypothesis on `lnq`).  Cosine similarity itself involves a square
root, so a result record stores the strictly monotone rational surrogate
  simKey q d = (dot q d * |dot q d|) / (sqnorm q * sqnorm d)
which equals `sim * |sim|` for the true cosine `sim`: it is zero, positive
or negative exactly when `sim` is, and compares (<, =, >) exactly as `sim`
does, so ordering, the positivity filter and the [0,1] bound transfer
verbatim.  Row l2-normalization performed by sklearn is omitted because
cosine similarity is invariant under positive scaling of either argument
and the stored rows are consumed only by cosine similarity.
-/

attribute [local semireducible] Rat.add Rat.mul Rat.inv Rat.sub

namespace LocalMind

/-- Characters matched by the `\w` class of the sklearn default token
pattern `(?u)\b\w\w+\b` (ASCII model: alphanumerics and underscore). -/
def isWordChar (c : Char) : Bool := c.isAlphanum || c == '_'

/-- Maximal runs of word characters in a character list; the boundaries of
the runs are exactly the `\b` boundaries of the token pattern. -/
def splitRuns : List Char → List (List Char)
  | [] => []
  | c :: cs =>
    let rest := splitRuns cs
    if isWordChar c then
      match cs with
      | [] => [[c]]
      | c2 :: _ =>
        if isWordChar c2 then
          match rest with
          | [] => [[c]]
          | r :: rs => (c :: r) :: rs
        else [c] :: rest
    else rest

/-- The sklearn default analyzer: lowercase, then keep the maximal word
character runs of length at least two (`token_pattern=r"(?u)\b\w\w+\b"`,
`lowercase=True`).  Lowercasing is performed characterwise on the
underlying character list. -/
def tokenize (s : String) : List String :=
  ((splitRuns (s.data.map Char.toLower)).filter (fun r => 2 ≤ r.length)).map
    (fun r => String.mk r)

/-- Document frequency of term `t`: in how many of the texts it occurs. -/
def df (textsL : List String) (t : String) : ℕ :=
  (textsL.filter (fun x => (tokenize x).contains t)).length

/-- Raw term count of `t` in a token list (sklearn raw counts,
`sublinear_tf=False`). -/
def tcount (toks : List String) (t : String) : ℕ :=
  (toks.filter (fun x => x == t)).length

/-- Corpus-wide total term count, used only by the `max_features` cap. -/
def totalTf (textsL : List String) (t : String) : ℕ :=
  (textsL.map (fun x => tcount (tokenize x) t)).sum

/-- Lexicographic order on strings via their character lists (the order
Python `sorted` uses on `str`); the builtin `String` order functions are
avoided because they do not reduce well. -/
def strLE (a b : String) : Prop := ¬ b.data < a.data

instance : DecidableRel strLE := fun a b =>
  inferInstanceAs (Decidable (¬ b.data < a.data))

/-- Alphabetically sorted copy of a term list (sklearn sorts the kept
vocabulary alphabetically when assigning indices). -/
def sortedTerms (l : List String) : List String := List.insertionSort strLE l

/-- All distinct terms of the corpus, in first-occurrence order. -/
def allTerms (textsL : List String) : List String :=
  ((textsL.map tokenize).flatten).dedup

/-- The vectorizer is constructed as `TfidfVectorizer(max_features=1000)`. -/
def max_features : ℕ := 1000

/-- Ordering used by sklearn `_limit_features` when the cap binds: kept
terms are the `max_features` with the largest corpus-wide counts, ties
resolved alphabetically (stable-argsort model of numpy argsort). -/
def capRank (textsL : List String) (a b : String) : Prop :=
  totalTf textsL b < totalTf textsL a ∨
    (totalTf textsL a = totalTf textsL b ∧ ¬ b.data < a.data)

instance (textsL : List String) : DecidableRel (capRank textsL) := fun a b =>
  inferInstanceAs (Decidable (totalTf textsL b < totalTf textsL a ∨
    (totalTf textsL a = totalTf textsL b ∧ ¬ b.data < a.data)))

/-- Vocabulary construction of `TfidfVectorizer.fit`: the distinct terms
sorted alphabetically, reduced to the top `max_features` by corpus
frequency when there are more than `max_features` distinct terms. -/
def buildVocabulary (textsL : List String) : List String :=
  let terms := sortedTerms (allTerms textsL)
  if terms.length ≤ max_features then terms
  else sortedTerms ((List.insertionSort (capRank textsL) terms).take max_features)

/-- State a fitted `TfidfVectorizer` carries between `fit_transform` and
`transform`: the vocabulary (`vocabulary_`) and the per-term idf weights
(`idf_`), kept as parallel lists. -/
structure FittedState where
  vocabulary_ : List String
  idf_ : List ℚ
deriving DecidableEq

/-- Smoothed idf of sklearn (`smooth_idf=True`):
`idf = ln((1+n)/(1+df)) + 1`, with `lnq` standing for `ln`. -/
def idfWeight (lnq : ℚ → ℚ) (n dft : ℕ) : ℚ :=
  lnq ((1 + (n : ℚ)) / (1 + (dft : ℚ))) + 1

/-- The fit step of `TfidfVectorizer.fit_transform`.  Note that sklearn
raises `ValueError` when the vocabulary comes out empty; this model
returns the empty fitted state instead (the distinction is immaterial to
the verified properties, which never depend on that error path). -/
def fit (lnq : ℚ → ℚ) (textsL : List String) : FittedState :=
  let v := buildVocabulary textsL
  ⟨v, v.map (fun t => idfWeight lnq textsL.length (df textsL t))⟩

/-- `TfidfVectorizer.transform` for one text: raw term count times idf per
vocabulary slot; out-of-vocabulary tokens are silently dropped.  Rows are
kept unnormalized, see the header comment. -/
def transform (f : FittedState) (text : String) : List ℚ :=
  let toks := tokenize text
  (f.vocabulary_.zip f.idf_).map (fun p => (tcount toks p.1 : ℚ) * p.2)

/-- Componentwise product sum of two weight vectors. -/
def dot (v w : List ℚ) : ℚ := ((v.zip w).map (fun p => p.1 * p.2)).sum

/-- Squared euclidean norm. -/
def sqnorm (v : List ℚ) : ℚ := dot v v

/-- Rational surrogate of `sklearn.metrics.pairwise.cosine_similarity`:
equals `sim * |sim|` for the true cosine `sim = dot/(|q| |d|)`, and `0`
when either norm is zero (sklearn's `normalize` leaves all-zero rows
untouched, so a zero vector yields similarity exactly 0, never NaN). -/
def simKey (q d : List ℚ) : ℚ :=
  if sqnorm q = 0 ∨ sqnorm d = 0 then 0
  else (dot q d * |dot q d|) / (sqnorm q * sqnorm d)

/-- A stored document: the dict built by `add_document`.  `metadata` is an
uninterpreted string map, `added_at` the ingestion timestamp (the engine never
inspects either). -/
structure Doc where
  id : String
  title : String
  content : String
  metadata : List (String × String)
  added_at : ℕ
deriving DecidableEq

/-- A search result: a copy of the stored document dict with the extra
`score` key (holding the `simKey` surrogate of the float score). -/
structure ScoredDoc where
  doc : Doc
  score : ℚ
deriving DecidableEq

/-- The `DocumentStore` state: `documents` models the insertion-ordered
Python dict keyed by id, `search_history` the query log, `vectorizer` the
fitted state of the `TfidfVectorizer` (`none` = never fitted, matching the
`hasattr(..., "vocabulary_")` check), `document_vectors` the tf-idf row
matrix and `document_ids` the row-index-to-id list. -/
structure DocumentStore where
  documents : List (String × Doc)
  search_history : List (String × ℕ)
  vectorizer : Option FittedState
  document_vectors : Option (List (List ℚ))
  document_ids : List String
deriving DecidableEq

/-- `DocumentStore.__init__`. -/
def DocumentStore.init : DocumentStore := ⟨[], [], none, none, []⟩

instance : DecidableEq (Except String DocumentStore) := fun a b =>
  match a, b with
  | .ok x, .ok y => decidable_of_iff (x = y) (by simp)
  | .error x, .error y => decidable_of_iff (x = y) (by simp)
  | .ok _, .error _ => isFalse (by simp)
  | .error _, .ok _ => isFalse (by simp)

/-- Python dict assignment `d[k] = v`: replace in place when the key is
present, else append at the end (insertion order is preserved on
replacement, Python 3.7 dict semantics). -/
def dictInsert (k : String) (v : Doc) (l : List (String × Doc)) :
    List (String × Doc) :=
  if l.any (fun p => p.1 == k) then
    l.map (fun p => if p.1 == k then (k, v) else p)
  else l ++ [(k, v)]

/-- Python `del d[k]`. -/
def dictRemove (k : String) (l : List (String × Doc)) : List (String × Doc) :=
  l.filter (fun p => p.1 != k)

/-- Python `d[k]` on the documents dict.  A missing key raises `KeyError`
in Python; that path is unreachable where this is used (the searcher only
looks up ids listed in `document_ids` while the corpus is non-empty), so
the model returns a dummy document there. -/
def dictGet (l : List (String × Doc)) (k : String) : Doc :=
  match l.find? (fun p => p.1 == k) with
  | some p => p.2
  | none => ⟨"", "", "", [], 0⟩

/-- Content column of the corpus, in dict order (the `texts` list built by
`_rebuild_vectors`). -/
def textsOf (st : DocumentStore) : List String :=
  st.documents.map (fun p => p.2.content)

/-- `DocumentStore._rebuild_vectors`: when the corpus is empty it returns
early, leaving the previous model fields in place; otherwise it refits the
vectorizer on the corpus contents and replaces `document_ids` and
`document_vectors` wholesale. -/
def _rebuild_vectors (lnq : ℚ → ℚ) (st : DocumentStore) : DocumentStore :=
  if st.documents = [] then st
  else
    let f := fit lnq (textsOf st)
    { st with
      document_ids := st.documents.map Prod.fst
      vectorizer := some f
      document_vectors := some ((textsOf st).map (transform f)) }

/-- `DocumentStore.add_document`: insert-or-replace under `doc_id`, then a
full rebuild. -/
def add_document (lnq : ℚ → ℚ) (st : DocumentStore) (doc_id title content : String)
    (metadata : List (String × String)) (now : ℕ) : DocumentStore :=
  _rebuild_vectors lnq
    { st with
      documents := dictInsert doc_id
        { id := doc_id, title := title, content := content,
          metadata := metadata, added_at := now }
        st.documents }

/-- The `DELETE /api/documents/id` endpoint `delete_document`: 404 when the
id is absent, otherwise delete and rebuild exactly as `add_document` does.
The error branch raises before touching any state, so the store argument
is returned unmodified information-theoretically: no updated store exists
on that branch. -/
def delete_document (lnq : ℚ → ℚ) (st : DocumentStore) (doc_id : String) :
    Except String DocumentStore :=
  if st.documents.any (fun p => p.1 == doc_id) then
    Except.ok (_rebuild_vectors lnq { st with documents := dictRemove doc_id st.documents })
  else Except.error "Document not found"

/-- Ascending comparison on row indices by similarity value, ties by index
(the stable argsort model of `numpy.argsort`; out-of-range indices read
as similarity 0, which never occurs on the ranges it is applied to). -/
def rankLE (sims : List ℚ) (i j : ℕ) : Prop :=
  sims.getD i 0 < sims.getD j 0 ∨ (sims.getD i 0 = sims.getD j 0 ∧ i ≤ j)

instance (sims : List ℚ) : DecidableRel (rankLE sims) := fun i j =>
  inferInstanceAs (Decidable (sims.getD i 0 < sims.getD j 0 ∨
    (sims.getD i 0 = sims.getD j 0 ∧ i ≤ j)))

/-- `similarities.argsort()`: the indices `0..n-1` in ascending order of
similarity.  numpy's default sort (introsort) guarantees the ascending
value order and the permutation property but documents no order among
tied values; below its partition cutoff (`SMALL_QUICKSORT = 15` in
npysort, i.e. for arrays of at most 16 elements) it runs pure insertion
sort, which is stable and breaks ties by ascending index.  The model
fixes exactly that stable tie order.  Conclusions that depend on the
order WITHIN a class of tied scores are therefore asserted only for
corpora of at most `numpyInsertionSortMax` documents, where the model
provably agrees with numpy; value-sortedness, the bound on the number of
results, which records are surviving candidates, and the permutation
property are independent of tie order and are asserted without that
restriction. -/
def argsort (sims : List ℚ) : List ℕ :=
  List.insertionSort (rankLE sims) (List.range sims.length)

/-- Largest array size for which `numpy.argsort` with the default kind is
pure insertion sort and hence stable: npysort partitions only while more
than `SMALL_QUICKSORT = 15` elements remain, so arrays of at most 16
elements are never partitioned. -/
def numpyInsertionSortMax : ℕ := 16

/-- Strict version of `rankLE`: strictly smaller similarity, or equal
similarity and strictly smaller index. -/
def rankLT (sims : List ℚ) (i j : ℕ) : Prop :=
  sims.getD i 0 < sims.getD j 0 ∨ (sims.getD i 0 = sims.getD j 0 ∧ i < j)

instance (sims : List ℚ) : IsTrans ℕ (rankLE sims) := ⟨by
  intro a b c hab hbc
  rcases hab with h1 | ⟨h1, h1le⟩ <;> rcases hbc with h2 | ⟨h2, h2le⟩
  · exact Or.inl (lt_trans h1 h2)
  · exact Or.inl (lt_of_lt_of_eq h1 h2)
  · exact Or.inl (lt_of_eq_of_lt h1 h2)
  · exact Or.inr ⟨h1.trans h2, le_trans h1le h2le⟩⟩

instance (sims : List ℚ) : IsTotal ℕ (rankLE sims) := ⟨by
  intro a b
  rcases lt_trichotomy (sims.getD a 0) (sims.getD b 0) with h | h | h
  · exact Or.inl (Or.inl h)
  · rcases Nat.le_total a b with hab | hba
    · exact Or.inl (Or.inr ⟨h, hab⟩)
    · exact Or.inr (Or.inr ⟨h.symm, hba⟩)
  · exact Or.inr (Or.inl h)⟩

/-- Python slice `l[-k:]` for natural `k`: the last `k` elements, except
that `-0` means `0`, so `k = 0` yields the whole list. -/
def lastSlice (k : ℕ) (l : List ℕ) : List ℕ :=
  if k = 0 then l else l.drop (l.length - k)

/-- One result record: `self.documents[self.document_ids[idx]].copy()`
with the `score` key set. -/
def mkScored (st : DocumentStore) (sims : List ℚ) (idx : ℕ) : ScoredDoc :=
  { doc := dictGet st.documents (st.document_ids.getD idx "")
    score := sims.getD idx 0 }

/-- The result-accumulation loop of `DocumentStore.search`: walk the top
indices and keep those with strictly positive similarity. -/
def buildResults (st : DocumentStore) (sims : List ℚ) (idxs : List ℕ) :
    List ScoredDoc :=
  idxs.foldl
    (fun acc idx =>
      if 0 < sims.getD idx 0 then acc ++ [mkScored st sims idx] else acc)
    []

/-- The store state after the history append performed by a search that
passes the guard. -/
def searchMid (st : DocumentStore) (query : String) (now : ℕ) : DocumentStore :=
  { st with search_history := st.search_history ++ [(query, now)] }

/-- The similarity row a search computes: one `simKey` value per stored
document vector, against the vectorized query. -/
def searchSims (st : DocumentStore) (query : String) : List ℚ :=
  (st.document_vectors.getD []).map
    (fun dv => simKey (transform (st.vectorizer.getD ⟨[], []⟩) query) dv)

/-- The surviving candidates of a search: one scored record for every
corpus row with strictly positive similarity, in row (insertion) order. -/
def survivors (st : DocumentStore) (sims : List ℚ) : List ScoredDoc :=
  ((List.range sims.length).filter (fun i => decide (0 < sims.getD i 0))).map
    (mkScored st sims)

/-- `DocumentStore.search`: guard (empty corpus or unbuilt vectors gives
`[]` with no further effect), then history append, query vectorization,
cosine scoring, top-`max_results` selection by ascending-argsort slice and
reversal, and the positive-score filter.  Returns the post-call store and
the result list. -/
def DocumentStore.search (st : DocumentStore) (query : String)
    (max_results : ℕ) (now : ℕ) : DocumentStore × List ScoredDoc :=
  if st.documents = [] ∨ st.document_vectors = none then (st, [])
  else
    let st1 := { st with search_history := st.search_history ++ [(query, now)] }
    let f := st.vectorizer.getD ⟨[], []⟩
    let query_vector := transform f query
    let vecs := st.document_vectors.getD []
    let similarities := vecs.map (fun dv => simKey query_vector dv)
    let top_indices := (lastSlice max_results (argsort similarities)).reverse
    (st1, buildResults st1 similarities top_indices)

/-- The statistics record returned by `DocumentStore.get_stats`. -/
structure Stats where
  total_documents : ℕ
  total_searches : ℕ
  storage_used_kb : ℚ
  unique_terms : ℕ
  recent_searches : List (String × ℕ)
deriving DecidableEq

/-- `DocumentStore.get_stats`: pure read.  `unique_terms` is
`len(self.vectorizer.vocabulary_)` when the vectorizer has been fitted and
`0` otherwise; `recent_searches` is `history[-5:][::-1]`. -/
def get_stats (st : DocumentStore) : Stats :=
  let total_size := (st.documents.map (fun p => p.2.content.length)).sum
  { total_documents := st.documents.length
    total_searches := st.search_history.length
    storage_used_kb := (total_size : ℚ) / 1024
    unique_terms :=
      match st.vectorizer with
      | some f => f.vocabulary_.length
      | none => 0
    recent_searches :=
      if st.search_history = [] then []
      else (st.search_history.drop (st.search_history.length - 5)).reverse }

/-- One entry of the `/api/search` response list: either a scored local
document or the simulated web result appended when `include_web` is set
(the Python list is heterogeneous, hence the sum). -/
inductive APIResult where
  | doc (d : ScoredDoc)
  | web (title content kind source url : String) (score : ℚ)
deriving DecidableEq

/-- The `/api/search` response body (the `query_analysis` echo of the
request is omitted as it carries no state). -/
structure SearchResponse where
  results : List APIResult
  total : ℕ
deriving DecidableEq

/-- The `POST /api/search` endpoint (`search` in main.py): run the store
search, optionally extend with the mock web result, and report
`total = len(results)`. -/
def api_search (st : DocumentStore) (query : String)
    (include_web : Bool) (max_results : ℕ) (now : ℕ) :
    DocumentStore × SearchResponse :=
  let p := DocumentStore.search st query max_results now
  let base := p.2.map APIResult.doc
  let results :=
    if include_web then
      base ++ [APIResult.web ("Web: " ++ query ++ " - Building Standards")
        ("Latest building codes and standards for " ++ query ++ "...")
        "web" "web" "https://example.com/standards" (8 / 10)]
    else base
  (p.1, ⟨results, results.length⟩)

instance : DecidableRel (fun (a b : Doc) => b.added_at ≤ a.added_at) :=
  fun a b => Nat.decLe b.added_at a.added_at

/-- The `GET /api/documents` endpoint `list_documents`: the document
values sorted newest-first by `added_at` (stable, like Python list sort
with `reverse=True`), sliced by `skip`/`limit`; also returns the total
count. -/
def list_documents (st : DocumentStore) (skip limit : ℕ) : List Doc × ℕ :=
  let docs := st.documents.map Prod.snd
  let sorted := List.insertionSort (fun a b => b.added_at ≤ a.added_at) docs
  ((sorted.drop skip).take limit, docs.length)

/-- States reachable from a fresh store by the mutating and searching
operations (uploads call `add_document`, the delete endpoint is
`delete_document`, searches may append history). -/
inductive Reachable (lnq : ℚ → ℚ) : DocumentStore → Prop where
  | init : Reachable lnq DocumentStore.init
  | add {st : DocumentStore} {doc_id title content : String}
      {metadata : List (String × String)} {now : ℕ} :
      Reachable lnq st →
      Reachable lnq (add_document lnq st doc_id title content metadata now)
  | delete {st st' : DocumentStore} {doc_id : String} :
      Reachable lnq st → delete_document lnq st doc_id = Except.ok st' →
      Reachable lnq st'
  | search {st : DocumentStore} {query : String} {max_results now : ℕ} :
      Reachable lnq st →
      Reachable lnq (DocumentStore.search st query max_results now).1

/-- A store whose model fields are in sync with the corpus (the state
`_rebuild_vectors` establishes whenever the corpus is non-empty). -/
def Synced (lnq : ℚ → ℚ) (st : DocumentStore) : Prop :=
  st.document_ids = st.documents.map Prod.fst
  ∧ st.vectorizer = some (fit lnq (textsOf st))
  ∧ st.document_vectors = some ((textsOf st).map (transform (fit lnq (textsOf st))))

/-- Structural invariant of reachable states: distinct keys, the id field
mirrors the key, and the model is in sync whenever the corpus is
non-empty (after an emptying remove the model fields may be stale, which
is exactly what the early return of `_rebuild_vectors` leaves behind). -/
def Inv (lnq : ℚ → ℚ) (st : DocumentStore) : Prop :=
  (st.documents.map Prod.fst).Nodup
  ∧ (∀ p ∈ st.documents, p.2.id = p.1)
  ∧ (st.documents = [] ∨ Synced lnq st)

/-- The identically-zero stand-in for the logarithm used by all concrete
evaluations (every verified property is parametric in `lnq`, so any
choice refutes a universally quantified claim; with `lnq0` every idf
weight is 1). -/
def lnq0 : ℚ → ℚ := fun _ => 0

/-- Concrete one-document store: `add_document("d1", "t1", "xx yy")` on a
fresh store. -/
def stOne : DocumentStore :=
  add_document lnq0 DocumentStore.init "d1" "t1" "xx yy" [] 0

/-- Concrete two-document store with identical contents: `stOne` then
`add_document("d2", "t2", "xx yy")`; the two documents receive identical
tf-idf vectors, hence identical scores against every query. -/
def stC : DocumentStore := add_document lnq0 stOne "d2" "t2" "xx yy" [] 1

/-- No term of the fitted vocabulary occurs in the tokenized query. -/
def NoVocabOverlap (st : DocumentStore) (q : String) : Prop :=
  ∀ f, st.vectorizer = some f → ∀ t ∈ f.vocabulary_, t ∉ tokenize q

/-- Results ordered by descending score with ties broken toward the
later-inserted document (larger position in `document_ids` first). -/
def laterFirst (st : DocumentStore) (a b : ScoredDoc) : Prop :=
  b.score < a.score ∨
    (b.score = a.score ∧ st.document_ids.indexOf b.doc.id < st.document_ids.indexOf a.doc.id)

instance (st : DocumentStore) : DecidableRel (laterFirst st) := fun a b =>
  inferInstanceAs (Decidable (b.score < a.score ∨
    (b.score = a.score ∧ st.document_ids.indexOf b.doc.id < st.document_ids.indexOf a.doc.id)))

/-- Results ordered by descending score with ties broken toward the
earlier-inserted document, as the specification claims. -/
def earlierFirst (st : DocumentStore) (a b : ScoredDoc) : Prop :=
  b.score < a.score ∨
    (b.score = a.score ∧ st.document_ids.indexOf a.doc.id < st.document_ids.indexOf b.doc.id)

instance (st : DocumentStore) : DecidableRel (earlierFirst st) := fun a b =>
  inferInstanceAs (Decidable (b.score < a.score ∨
    (b.score = a.score ∧ st.document_ids.indexOf a.doc.id < st.document_ids.indexOf b.doc.id)))

end LocalMind

namespace LocalMind

/- Helper lemmas -/

theorem search_frame (st : DocumentStore) (q : String) (k now : ℕ) :
    ((DocumentStore.search st q k now).1).documents = st.documents
    ∧ ((DocumentStore.search st q k now).1).vectorizer = st.vectorizer
    ∧ ((DocumentStore.search st q k now).1).document_vectors = st.document_vectors
    ∧ ((DocumentStore.search st q k now).1).document_ids = st.document_ids := by
  unfold DocumentStore.search
  split <;> simp

theorem search_of_guard (st : DocumentStore) (q : String) (k now : ℕ)
    (h : st.documents = [] ∨ st.document_vectors = none) :
    DocumentStore.search st q k now = (st, []) := by
  unfold DocumentStore.search
  rw [if_pos h]

theorem search_of_active (st : DocumentStore) (q : String) (k now : ℕ)
    (h1 : st.documents ≠ []) (h2 : st.document_vectors ≠ none) :
    DocumentStore.search st q k now =
      ({ st with search_history := st.search_history ++ [(q, now)] },
        buildResults { st with search_history := st.search_history ++ [(q, now)] }
          ((st.document_vectors.getD []).map
            (fun dv => simKey (transform (st.vectorizer.getD ⟨[], []⟩) q) dv))
          ((lastSlice k (argsort ((st.document_vectors.getD []).map
            (fun dv => simKey (transform (st.vectorizer.getD ⟨[], []⟩) q) dv)))).reverse)) := by
  unfold DocumentStore.search
  rw [if_neg (by simp [h1, h2])]

theorem buildResults_eq (st : DocumentStore) (sims : List ℚ) (idxs : List ℕ) :
    buildResults st sims idxs =
      (idxs.filter (fun i => decide (0 < sims.getD i 0))).map (mkScored st sims) := by
  have gen : ∀ (l : List ℕ) (acc : List ScoredDoc),
      l.foldl (fun acc idx =>
          if 0 < sims.getD idx 0 then acc ++ [mkScored st sims idx] else acc) acc
        = acc ++ (l.filter (fun i => decide (0 < sims.getD i 0))).map (mkScored st sims) := by
    intro l
    induction l with
    | nil => intro acc; simp
    | cons x xs ih =>
      intro acc
      by_cases hx : 0 < sims.getD x 0
      · rw [List.foldl_cons, if_pos hx, ih, List.filter_cons, if_pos (by simpa using hx),
          List.map_cons]
        simp
      · rw [List.foldl_cons, if_neg hx, ih, List.filter_cons, if_neg (by simpa using hx)]
  simpa [buildResults] using gen idxs []

theorem sqnorm_eq_zero_of_zeros (v : List ℚ) (h : ∀ x ∈ v, x = 0) : sqnorm v = 0 := by
  unfold sqnorm dot
  apply List.sum_eq_zero
  intro x hx
  obtain ⟨p, hp, rfl⟩ := List.mem_map.mp hx
  have h1 : p.1 ∈ v := (List.of_mem_zip hp).1
  rw [h p.1 h1, zero_mul]

theorem getD_mem_or (v : List ℚ) (i : ℕ) : v.getD i 0 ∈ v ∨ v.getD i 0 = 0 := by
  by_cases hi : i < v.length
  · rw [List.getD_eq_getElem v 0 hi]
    exact Or.inl (List.getElem_mem hi)
  · exact Or.inr (List.getD_eq_default v 0 (Nat.le_of_not_lt hi))

theorem getD_zero_of_zeros (v : List ℚ) (h : ∀ x ∈ v, x = 0) (i : ℕ) :
    v.getD i 0 = 0 := by
  rcases getD_mem_or v i with hm | hz
  · exact h _ hm
  · exact hz


theorem any_key_iff (k : String) (l : List (String × Doc)) :
    l.any (fun p => p.1 == k) = true ↔ k ∈ l.map Prod.fst := by
  rw [List.any_eq_true]
  constructor
  · rintro ⟨p, hp, he⟩
    exact List.mem_map.mpr ⟨p, hp, by simpa using he⟩
  · rintro h
    obtain ⟨p, hp, he⟩ := List.mem_map.mp h
    exact ⟨p, hp, by simp [he]⟩

theorem transform_zero_of_no_overlap (f : FittedState) (q : String)
    (hov : ∀ t ∈ f.vocabulary_, t ∉ tokenize q) :
    ∀ x ∈ transform f q, x = 0 := by
  intro x hx
  obtain ⟨p, hp, rfl⟩ := List.mem_map.mp hx
  have h1 : p.1 ∈ f.vocabulary_ := (List.of_mem_zip hp).1
  have hc : tcount (tokenize q) p.1 = 0 := by
    unfold tcount
    rw [List.length_eq_zero]
    rw [List.filter_eq_nil_iff]
    intro a ha hb
    exact hov p.1 h1 (by rwa [← beq_iff_eq.mp hb])
  rw [hc]
  simp

theorem search_empty_of_zero_query (st : DocumentStore) (q : String) (k now : ℕ)
    (h1 : st.documents ≠ []) (h2 : st.document_vectors ≠ none)
    (hz : sqnorm (transform (st.vectorizer.getD ⟨[], []⟩) q) = 0) :
    (DocumentStore.search st q k now).2 = [] := by
  rw [search_of_active st q k now h1 h2]
  simp only []
  rw [buildResults_eq]
  have hsims : ∀ x ∈ (st.document_vectors.getD []).map
      (fun dv => simKey (transform (st.vectorizer.getD ⟨[], []⟩) q) dv), x = 0 := by
    intro x hx
    obtain ⟨dv, _, rfl⟩ := List.mem_map.mp hx
    unfold simKey
    rw [if_pos (Or.inl hz)]
  rw [List.filter_eq_nil_iff.mpr ?_, List.map_nil]
  intro i _
  rw [getD_zero_of_zeros _ hsims i]
  simp

/- Claim theorems -/

/-- Claim C3 (corrected): whenever the corpus is non-empty and the vector
matrix has been built, `search` appends exactly one `(query, timestamp)`
entry to the query history before computing results, so zero-result
queries on a non-empty corpus are still recorded.  On an empty corpus the
guard returns before the append (see `C3_counterexample`). -/
theorem C3_theorem (st : DocumentStore) (q : String) (k now : ℕ)
    (h1 : st.documents ≠ []) (h2 : st.document_vectors ≠ none) :
    ((DocumentStore.search st q k now).1).search_history
      = st.search_history ++ [(q, now)] := by
  rw [search_of_active st q k now h1 h2]

/-- Claim C3, counterexample to the claim as stated: on the empty corpus a
search leaves the history untouched, it does not append the entry. -/
theorem C3_counterexample :
    ((DocumentStore.search DocumentStore.init "xx" 10 0).1).search_history
      ≠ DocumentStore.init.search_history ++ [("xx", 0)] := by decide

/-- Claim C3, witness: the amended statement applied to a concrete
one-document store and a query with zero results. -/
theorem C3_witness :
    ((DocumentStore.search stOne "zz" 10 7).1).search_history
      = stOne.search_history ++ [("zz", 7)] :=
  C3_theorem stOne "zz" 10 7 (by decide) (by decide)

/-- Claim C4 (confirmed): on an empty corpus, or when no fitted vocabulary
term occurs in the tokenized query, `DocumentStore.search` returns the
empty result list, and the `/api/search` endpoint (without the simulated
web results) reports `results = []` and `total = 0`; no error is raised
(the model is a total function). -/
theorem C4_theorem (st : DocumentStore) (q : String) (k now : ℕ)
    (h : st.documents = [] ∨ NoVocabOverlap st q) :
    (DocumentStore.search st q k now).2 = []
    ∧ (api_search st q false k now).2.results = []
    ∧ (api_search st q false k now).2.total = 0 := by
  have key : (DocumentStore.search st q k now).2 = [] := by
    by_cases hg : st.documents = [] ∨ st.document_vectors = none
    · rw [search_of_guard st q k now hg]
    · push_neg at hg
      rcases h with he | hov
      · exact absurd he hg.1
      · refine search_empty_of_zero_query st q k now hg.1 hg.2 ?_
        apply sqnorm_eq_zero_of_zeros
        rcases hv : st.vectorizer with _ | f
        · intro x hx
          simp [transform] at hx
        · exact transform_zero_of_no_overlap f q (hov f hv)
  refine ⟨key, ?_, ?_⟩ <;> simp [api_search, key]

/-- Claim C4, witness: a fresh (empty) store. -/
theorem C4_witness :
    (DocumentStore.search DocumentStore.init "zz" 3 0).2 = []
    ∧ (api_search DocumentStore.init "zz" false 3 0).2.results = []
    ∧ (api_search DocumentStore.init "zz" false 3 0).2.total = 0 :=
  C4_theorem DocumentStore.init "zz" 3 0 (Or.inl rfl)

/-- Claim C5 (confirmed): `delete_document` fails with the 404
"Document not found" error exactly when the id is absent from the corpus,
and on a present id it deletes that document and runs the same
`_rebuild_vectors` rebuild that `add_document` runs.  The error branch
raises before any mutation, so no modified store exists on it. -/
theorem C5_theorem (lnq : ℚ → ℚ) (st : DocumentStore) (doc_id : String) :
    delete_document lnq st doc_id =
      if doc_id ∈ st.documents.map Prod.fst then
        Except.ok (_rebuild_vectors lnq
          { st with documents := dictRemove doc_id st.documents })
      else Except.error "Document not found" := by
  unfold delete_document
  by_cases h : doc_id ∈ st.documents.map Prod.fst
  · rw [if_pos ((any_key_iff doc_id st.documents).mpr h), if_pos h]
  · rw [if_neg ?_, if_neg h]
    intro hc
    exact h ((any_key_iff doc_id st.documents).mp hc)

/-- Claim C6 (confirmed): every result returned by `search` has a strictly
positive similarity score; a zero-similarity document is never returned,
regardless of how short of `max_results` the result list falls. -/
theorem C6_theorem (st : DocumentStore) (q : String) (k now : ℕ) (r : ScoredDoc)
    (hr : r ∈ (DocumentStore.search st q k now).2) : 0 < r.score := by
  by_cases hg : st.documents = [] ∨ st.document_vectors = none
  · rw [search_of_guard st q k now hg] at hr
    simp at hr
  · push_neg at hg
    rw [search_of_active st q k now hg.1 hg.2] at hr
    simp only [] at hr
    rw [buildResults_eq] at hr
    obtain ⟨i, hi, rfl⟩ := List.mem_map.mp hr
    have hmem := List.of_mem_filter hi
    exact of_decide_eq_true hmem

/-- Claim C6, witness: the single result of a concrete search has positive
score. -/
theorem C6_witness :
    (0:ℚ) < (ScoredDoc.mk ⟨"d1", "t1", "xx yy", [], 0⟩ (1/2)).score :=
  C6_theorem stOne "xx" 10 7 (ScoredDoc.mk ⟨"d1", "t1", "xx yy", [], 0⟩ (1/2)) (by decide)

/-- Claim C10 (confirmed): `search` never modifies the stored documents,
model fields or id list (results are built from copies carrying the extra
score field, which does not exist on stored documents), and therefore the
output of `list_documents` is identical before and after a search. -/
theorem C10_theorem (st : DocumentStore) (q : String) (k now skip lim : ℕ) :
    ((DocumentStore.search st q k now).1).documents = st.documents
    ∧ ((DocumentStore.search st q k now).1).document_vectors = st.document_vectors
    ∧ ((DocumentStore.search st q k now).1).document_ids = st.document_ids
    ∧ ((DocumentStore.search st q k now).1).vectorizer = st.vectorizer
    ∧ list_documents (DocumentStore.search st q k now).1 skip lim
        = list_documents st skip lim := by
  obtain ⟨hd, hv, hm, hi⟩ := search_frame st q k now
  exact ⟨hd, hm, hi, hv, by simp [list_documents, hd]⟩

/-- Claim C1 (code bug): after `add("d1", ...)` followed by
`remove("d1")` the corpus is empty, yet the model still lists row id "d1"
and keeps one matrix row, because `_rebuild_vectors` returns early on an
empty corpus without clearing the stale model. -/
theorem C1_code_bug_eval :
    (delete_document lnq0 stOne "d1").toOption.map
      (fun s => (s.documents.map Prod.fst, s.document_ids,
        (s.document_vectors.getD []).length))
      = some ([], ["d1"], 1) := by decide

/-- Claim C8 (code bug): the same emptying remove leaves
`get_stats().unique_terms = 2` (the stale vocabulary of the deleted
document) although the corpus is empty and the claim requires 0. -/
theorem C8_code_bug_eval :
    (delete_document lnq0 stOne "d1").toOption.map
      (fun s => (s.documents.length, (get_stats s).unique_terms))
      = some (0, 2) := by decide


theorem rebuild_documents (lnq : ℚ → ℚ) (st : DocumentStore) :
    (_rebuild_vectors lnq st).documents = st.documents := by
  unfold _rebuild_vectors
  split <;> rfl

theorem rebuild_of_ne_nil (lnq : ℚ → ℚ) (st : DocumentStore)
    (h : st.documents ≠ []) :
    _rebuild_vectors lnq st =
      { st with
        document_ids := st.documents.map Prod.fst
        vectorizer := some (fit lnq (textsOf st))
        document_vectors := some ((textsOf st).map (transform (fit lnq (textsOf st)))) } := by
  unfold _rebuild_vectors
  rw [if_neg h]

theorem add_documents_eq (lnq : ℚ → ℚ) (st : DocumentStore)
    (doc_id title content : String) (metadata : List (String × String)) (now : ℕ) :
    (add_document lnq st doc_id title content metadata now).documents
      = dictInsert doc_id ⟨doc_id, title, content, metadata, now⟩ st.documents := by
  unfold add_document
  rw [rebuild_documents]

theorem dictInsert_any (k : String) (v : Doc) (l : List (String × Doc)) :
    (dictInsert k v l).any (fun p => p.1 == k) = true := by
  unfold dictInsert
  by_cases h : l.any (fun p => p.1 == k) = true
  · rw [if_pos h]
    obtain ⟨p, hp, he⟩ := List.any_eq_true.mp h
    refine List.any_eq_true.mpr ⟨(k, v), List.mem_map.mpr ⟨p, hp, by rw [if_pos he]⟩, by simp⟩
  · rw [if_neg h]
    exact List.any_eq_true.mpr ⟨(k, v), by simp, by simp⟩

theorem dictInsert_ne_nil (k : String) (v : Doc) (l : List (String × Doc)) :
    dictInsert k v l ≠ [] := by
  unfold dictInsert
  by_cases h : l.any (fun p => p.1 == k) = true
  · rw [if_pos h]
    obtain ⟨p, hp, _⟩ := List.any_eq_true.mp h
    intro hnil
    rw [List.map_eq_nil_iff] at hnil
    rw [hnil] at hp
    exact (List.not_mem_nil p) hp
  · rw [if_neg h]
    simp

theorem dictInsert_keys (k : String) (v : Doc) (l : List (String × Doc)) :
    (dictInsert k v l).map Prod.fst =
      if l.any (fun p => p.1 == k) = true then l.map Prod.fst
      else l.map Prod.fst ++ [k] := by
  unfold dictInsert
  by_cases h : l.any (fun p => p.1 == k) = true
  · rw [if_pos h, if_pos h, List.map_map]
    apply List.map_congr_left
    intro p _
    by_cases hk : (p.1 == k) = true
    · simp only [Function.comp_apply]
      rw [if_pos hk]
      exact (beq_iff_eq.mp hk).symm
    · simp only [Function.comp_apply]
      rw [if_neg hk]
  · rw [if_neg h, if_neg h, List.map_append]
    rfl

theorem dictInsert_at_key (k : String) (v : Doc) (l : List (String × Doc)) :
    ∀ p ∈ dictInsert k v l, p.1 = k → p = (k, v) := by
  intro p hp he
  unfold dictInsert at hp
  by_cases h : l.any (fun x => x.1 == k) = true
  · rw [if_pos h] at hp
    obtain ⟨q, hq, hgq⟩ := List.mem_map.mp hp
    by_cases hk : (q.1 == k) = true
    · rw [if_pos hk] at hgq
      exact hgq.symm
    · rw [if_neg hk] at hgq
      subst hgq
      exact absurd (by simp [he]) hk
  · rw [if_neg h] at hp
    rcases List.mem_append.mp hp with hl | hr
    · exact absurd (List.any_eq_true.mpr ⟨p, hl, by simp [he]⟩) h
    · simpa using hr

theorem dictInsert_keys_nodup (k : String) (v : Doc) (l : List (String × Doc))
    (h : (l.map Prod.fst).Nodup) : ((dictInsert k v l).map Prod.fst).Nodup := by
  rw [dictInsert_keys]
  by_cases ha : l.any (fun p => p.1 == k) = true
  · rw [if_pos ha]
    exact h
  · rw [if_neg ha]
    rw [List.nodup_append]
    refine ⟨h, List.nodup_singleton k, ?_⟩
    intro a hamem hamem'
    rw [List.mem_singleton] at hamem'
    subst hamem'
    exact ha ((any_key_iff a l).mpr hamem)

/-- Claim C9 (confirmed): adding the same `(id, title, content, metadata)`
twice in a row leaves exactly one document stored under the id (provided
the store had no duplicate keys, which holds in every reachable state),
with the same key sequence, and the rebuilt vocabulary, idf weights and
document-vector matrix after the second add are identical to those after
the first add (only the `added_at` timestamp of the stored document can
differ, and the vectors do not depend on it). -/
theorem C9_theorem (lnq : ℚ → ℚ) (st : DocumentStore)
    (doc_id title content : String) (metadata : List (String × String))
    (n1 n2 : ℕ) (hnd : (st.documents.map Prod.fst).Nodup) :
    (((add_document lnq (add_document lnq st doc_id title content metadata n1)
          doc_id title content metadata n2).documents.filter
        (fun p => p.1 == doc_id)).length = 1)
    ∧ (add_document lnq (add_document lnq st doc_id title content metadata n1)
          doc_id title content metadata n2).documents.map Prod.fst
        = (add_document lnq st doc_id title content metadata n1).documents.map Prod.fst
    ∧ (add_document lnq (add_document lnq st doc_id title content metadata n1)
          doc_id title content metadata n2).document_vectors
        = (add_document lnq st doc_id title content metadata n1).document_vectors
    ∧ (add_document lnq (add_document lnq st doc_id title content metadata n1)
          doc_id title content metadata n2).document_ids
        = (add_document lnq st doc_id title content metadata n1).document_ids
    ∧ (add_document lnq (add_document lnq st doc_id title content metadata n1)
          doc_id title content metadata n2).vectorizer
        = (add_document lnq st doc_id title content metadata n1).vectorizer := by
  set d1 : Doc := ⟨doc_id, title, content, metadata, n1⟩ with hd1
  set d2 : Doc := ⟨doc_id, title, content, metadata, n2⟩ with hd2
  set A : List (String × Doc) := dictInsert doc_id d1 st.documents with hA
  have hadd1docs : (add_document lnq st doc_id title content metadata n1).documents = A :=
    add_documents_eq lnq st doc_id title content metadata n1
  have hadd2docs : (add_document lnq (add_document lnq st doc_id title content metadata n1)
      doc_id title content metadata n2).documents = dictInsert doc_id d2 A := by
    rw [add_documents_eq, hadd1docs]
  set B : List (String × Doc) := dictInsert doc_id d2 A with hB
  have hAany : A.any (fun p => p.1 == doc_id) = true := dictInsert_any doc_id d1 st.documents
  have hBmap : B = A.map (fun p => if p.1 == doc_id then (doc_id, d2) else p) := by
    rw [hB]
    unfold dictInsert
    rw [if_pos hAany]
  have hkeys : B.map Prod.fst = A.map Prod.fst := by
    rw [hBmap, List.map_map]
    apply List.map_congr_left
    intro p _
    by_cases hk : (p.1 == doc_id) = true
    · simp only [Function.comp_apply]
      rw [if_pos hk]
      exact (beq_iff_eq.mp hk).symm
    · simp only [Function.comp_apply]
      rw [if_neg hk]
  have htexts : B.map (fun p => p.2.content) = A.map (fun p => p.2.content) := by
    rw [hBmap, List.map_map]
    apply List.map_congr_left
    intro p hp
    by_cases hk : (p.1 == doc_id) = true
    · have hpd1 : p = (doc_id, d1) :=
        dictInsert_at_key doc_id d1 st.documents p hp (beq_iff_eq.mp hk)
      simp only [Function.comp_apply]
      rw [if_pos hk, hpd1]
    · simp only [Function.comp_apply]
      rw [if_neg hk]
  have hAne : A ≠ [] := dictInsert_ne_nil doc_id d1 st.documents
  have hBne : B ≠ [] := dictInsert_ne_nil doc_id d2 A
  have hAnodup : (A.map Prod.fst).Nodup := dictInsert_keys_nodup doc_id d1 st.documents hnd
  have hmem : doc_id ∈ B.map Prod.fst := (any_key_iff doc_id B).mp (dictInsert_any doc_id d2 A)
  have hcount : ((B.filter (fun p => p.1 == doc_id)).length = 1) := by
    have h1 : (B.filter (fun p => p.1 == doc_id)).length
        = List.countP (fun p => p.1 == doc_id) B := (List.countP_eq_length_filter _ _).symm
    have h2 : List.countP (fun p => p.1 == doc_id) B
        = List.countP (fun x => x == doc_id) (B.map Prod.fst) := by
      rw [List.countP_map]
      rfl
    have h3 : List.countP (fun x => x == doc_id) (B.map Prod.fst)
        = (B.map Prod.fst).count doc_id := rfl
    rw [h1, h2, h3]
    have hBnodup : (B.map Prod.fst).Nodup := by
      rw [hkeys]
      exact hAnodup
    exact List.count_eq_one_of_mem hBnodup hmem
  -- the two adds rebuild from corpora with equal keys and equal contents
  have hadd1 : add_document lnq st doc_id title content metadata n1
      = _rebuild_vectors lnq { st with documents := A } := rfl
  have hadd2 : add_document lnq (add_document lnq st doc_id title content metadata n1)
        doc_id title content metadata n2
      = _rebuild_vectors lnq
          { add_document lnq st doc_id title content metadata n1 with documents := B } := by
    rw [hB, ← hadd1docs]
    rfl
  refine ⟨?_, ?_, ?_, ?_, ?_⟩
  · rw [hadd2docs]
    exact hcount
  · rw [hadd2docs, hadd1docs]
    exact hkeys
  · rw [hadd2, hadd1, rebuild_of_ne_nil _ _ (by simpa using hBne),
      rebuild_of_ne_nil _ _ (by simpa using hAne)]
    simp only [textsOf]
    rw [htexts]
  · rw [hadd2, hadd1, rebuild_of_ne_nil _ _ (by simpa using hBne),
      rebuild_of_ne_nil _ _ (by simpa using hAne)]
    simp only []
    exact hkeys
  · rw [hadd2, hadd1, rebuild_of_ne_nil _ _ (by simpa using hBne),
      rebuild_of_ne_nil _ _ (by simpa using hAne)]
    simp only [textsOf]
    rw [htexts]

/-- Claim C9, witness: double add of the same document on a fresh store. -/
theorem C9_witness :
    (((add_document lnq0 (add_document lnq0 DocumentStore.init "d1" "t1" "xx yy" [] 0)
          "d1" "t1" "xx yy" [] 1).documents.filter (fun p => p.1 == "d1")).length = 1)
    ∧ (add_document lnq0 (add_document lnq0 DocumentStore.init "d1" "t1" "xx yy" [] 0)
          "d1" "t1" "xx yy" [] 1).documents.map Prod.fst
        = (add_document lnq0 DocumentStore.init "d1" "t1" "xx yy" [] 0).documents.map Prod.fst
    ∧ (add_document lnq0 (add_document lnq0 DocumentStore.init "d1" "t1" "xx yy" [] 0)
          "d1" "t1" "xx yy" [] 1).document_vectors
        = (add_document lnq0 DocumentStore.init "d1" "t1" "xx yy" [] 0).document_vectors
    ∧ (add_document lnq0 (add_document lnq0 DocumentStore.init "d1" "t1" "xx yy" [] 0)
          "d1" "t1" "xx yy" [] 1).document_ids
        = (add_document lnq0 DocumentStore.init "d1" "t1" "xx yy" [] 0).document_ids
    ∧ (add_document lnq0 (add_document lnq0 DocumentStore.init "d1" "t1" "xx yy" [] 0)
          "d1" "t1" "xx yy" [] 1).vectorizer
        = (add_document lnq0 DocumentStore.init "d1" "t1" "xx yy" [] 0).vectorizer :=
  C9_theorem lnq0 DocumentStore.init "d1" "t1" "xx yy" [] 0 1 (by decide)


theorem dictInsert_ids_eq (k : String) (v : Doc) (l : List (String × Doc))
    (hv : v.id = k) (h : ∀ p ∈ l, p.2.id = p.1) :
    ∀ p ∈ dictInsert k v l, p.2.id = p.1 := by
  intro p hp
  unfold dictInsert at hp
  by_cases ha : l.any (fun x => x.1 == k) = true
  · rw [if_pos ha] at hp
    obtain ⟨q, hq, hgq⟩ := List.mem_map.mp hp
    by_cases hk : (q.1 == k) = true
    · rw [if_pos hk] at hgq
      subst hgq
      exact hv
    · rw [if_neg hk] at hgq
      subst hgq
      exact h q hq
  · rw [if_neg ha] at hp
    rcases List.mem_append.mp hp with hl | hr
    · exact h p hl
    · rw [List.mem_singleton] at hr
      subst hr
      exact hv

theorem synced_rebuild (lnq : ℚ → ℚ) (st : DocumentStore)
    (h : st.documents ≠ []) : Synced lnq (_rebuild_vectors lnq st) := by
  rw [rebuild_of_ne_nil lnq st h]
  exact ⟨rfl, rfl, rfl⟩

theorem synced_congr (lnq : ℚ → ℚ) (st st' : DocumentStore)
    (hd : st'.documents = st.documents) (hi : st'.document_ids = st.document_ids)
    (hv : st'.vectorizer = st.vectorizer)
    (hm : st'.document_vectors = st.document_vectors)
    (h : Synced lnq st) : Synced lnq st' := by
  obtain ⟨h1, h2, h3⟩ := h
  refine ⟨?_, ?_, ?_⟩
  · rw [hi, hd, h1]
  · rw [hv, h2]
    unfold textsOf
    rw [hd]
  · rw [hm, h3]
    unfold textsOf
    rw [hd]

theorem inv_of_reachable (lnq : ℚ → ℚ) (st : DocumentStore)
    (h : Reachable lnq st) : Inv lnq st := by
  induction h with
  | init => exact ⟨List.nodup_nil, by intro p hp; simp [DocumentStore.init] at hp, Or.inl rfl⟩
  | @add st0 doc_id title content metadata now h ih =>
    obtain ⟨hnd, hids, _⟩ := ih
    refine ⟨?_, ?_, ?_⟩
    · rw [add_documents_eq]
      exact dictInsert_keys_nodup _ _ _ hnd
    · rw [add_documents_eq]
      exact dictInsert_ids_eq _ _ _ rfl hids
    · refine Or.inr ?_
      unfold add_document
      exact synced_rebuild lnq _ (by
        simpa using dictInsert_ne_nil doc_id
          ⟨doc_id, title, content, metadata, now⟩ st0.documents)
  | @delete st0 st' doc_id h hdel ih =>
    obtain ⟨hnd, hids, _⟩ := ih
    unfold delete_document at hdel
    by_cases ha : st0.documents.any (fun p => p.1 == doc_id) = true
    · rw [if_pos ha] at hdel
      obtain rfl : _rebuild_vectors lnq
          { st0 with documents := dictRemove doc_id st0.documents } = st' :=
        congrArg (fun e => match e with | Except.ok s => s | Except.error _ => st0) hdel
      have hdocs : (_rebuild_vectors lnq
          { st0 with documents := dictRemove doc_id st0.documents }).documents
          = dictRemove doc_id st0.documents := rebuild_documents _ _
      have hsub : List.Sublist (dictRemove doc_id st0.documents) st0.documents :=
        List.filter_sublist st0.documents
      refine ⟨?_, ?_, ?_⟩
      · rw [hdocs]
        exact List.Nodup.sublist (hsub.map Prod.fst) hnd
      · rw [hdocs]
        intro p hp
        exact hids p (hsub.mem hp)
      · by_cases hne : dictRemove doc_id st0.documents = []
        · refine Or.inl ?_
          rw [hdocs, hne]
        · exact Or.inr (synced_rebuild lnq _ (by simpa using hne))
    · rw [if_neg ha] at hdel
      exact absurd hdel (by simp)
  | @search st0 query k now h ih =>
    obtain ⟨hnd, hids, hmod⟩ := ih
    obtain ⟨hd, hv, hm, hi⟩ := search_frame st0 query k now
    refine ⟨by rw [hd]; exact hnd, by rw [hd]; exact hids, ?_⟩
    rcases hmod with he | hs
    · exact Or.inl (by rw [hd, he])
    · exact Or.inr (synced_congr lnq st0 _ hd hi hv hm hs)

theorem synced_of_reachable_ne (lnq : ℚ → ℚ) (st : DocumentStore)
    (h : Reachable lnq st) (hne : st.documents ≠ []) : Synced lnq st := by
  rcases (inv_of_reachable lnq st h).2.2 with he | hs
  · exact absurd he hne
  · exact hs


theorem dot_cons (a b : ℚ) (v w : List ℚ) :
    dot (a :: v) (b :: w) = a * b + dot v w := by
  unfold dot
  rw [List.zip_cons_cons, List.map_cons, List.sum_cons]

theorem dot_nil_left (w : List ℚ) : dot [] w = 0 := rfl

theorem dot_nil_right (v : List ℚ) : dot v [] = 0 := by
  unfold dot
  rw [List.zip_nil_right]
  rfl

theorem sqnorm_nonneg (v : List ℚ) : 0 ≤ sqnorm v := by
  induction v with
  | nil => exact le_refl 0
  | cons a v ih =>
    unfold sqnorm at *
    rw [dot_cons]
    exact add_nonneg (mul_self_nonneg a) ih

theorem dot_nonneg (v w : List ℚ) (hv : ∀ x ∈ v, 0 ≤ x) (hw : ∀ x ∈ w, 0 ≤ x) :
    0 ≤ dot v w := by
  unfold dot
  apply List.sum_nonneg
  intro x hx
  obtain ⟨p, hp, rfl⟩ := List.mem_map.mp hx
  exact mul_nonneg (hv _ (List.of_mem_zip hp).1) (hw _ (List.of_mem_zip hp).2)

theorem dot_eq_sum (N : ℕ) (v w : List ℚ) (hv : v.length ≤ N) (hw : w.length ≤ N) :
    dot v w = ∑ i ∈ Finset.range N, v.getD i 0 * w.getD i 0 := by
  induction N generalizing v w with
  | zero =>
    rw [Nat.le_zero, List.length_eq_zero] at hv
    subst hv
    rw [dot_nil_left]
    simp
  | succ N ih =>
    cases v with
    | nil =>
      rw [dot_nil_left]
      symm
      apply Finset.sum_eq_zero
      intro i _
      simp
    | cons a v2 =>
      cases w with
      | nil =>
        rw [dot_nil_right]
        symm
        apply Finset.sum_eq_zero
        intro i _
        simp
      | cons b w2 =>
        rw [dot_cons, Finset.sum_range_succ']
        simp only [List.getD_cons_succ, List.getD_cons_zero]
        rw [ih v2 w2 (by simpa using hv) (by simpa using hw)]
        ring

theorem dot_sq_le (v w : List ℚ) : dot v w ^ 2 ≤ sqnorm v * sqnorm w := by
  have hv : v.length ≤ max v.length w.length := le_max_left _ _
  have hw : w.length ≤ max v.length w.length := le_max_right _ _
  unfold sqnorm
  rw [dot_eq_sum (max v.length w.length) v w hv hw,
    dot_eq_sum (max v.length w.length) v v hv hv,
    dot_eq_sum (max v.length w.length) w w hw hw]
  have hcs := Finset.sum_mul_sq_le_sq_mul_sq (Finset.range (max v.length w.length))
    (fun i => v.getD i 0) (fun i => w.getD i 0)
  calc (∑ i ∈ Finset.range (max v.length w.length), v.getD i 0 * w.getD i 0) ^ 2
      ≤ (∑ i ∈ Finset.range (max v.length w.length), v.getD i 0 ^ 2)
        * (∑ i ∈ Finset.range (max v.length w.length), w.getD i 0 ^ 2) := hcs
    _ = (∑ i ∈ Finset.range (max v.length w.length), v.getD i 0 * v.getD i 0)
        * (∑ i ∈ Finset.range (max v.length w.length), w.getD i 0 * w.getD i 0) := by
        congr 1 <;> exact Finset.sum_congr rfl (fun i _ => by ring)

theorem simKey_bounds (q d : List ℚ) (hq : ∀ x ∈ q, 0 ≤ x) (hd : ∀ x ∈ d, 0 ≤ x) :
    0 ≤ simKey q d ∧ simKey q d ≤ 1 := by
  unfold simKey
  split
  · exact ⟨le_refl 0, by norm_num⟩
  · rename_i hcond
    push_neg at hcond
    have hqn : 0 < sqnorm q := lt_of_le_of_ne (sqnorm_nonneg q) (Ne.symm hcond.1)
    have hdn : 0 < sqnorm d := lt_of_le_of_ne (sqnorm_nonneg d) (Ne.symm hcond.2)
    have hdot : 0 ≤ dot q d := dot_nonneg q d hq hd
    rw [abs_of_nonneg hdot]
    constructor
    · positivity
    · rw [div_le_one (by positivity)]
      calc dot q d * dot q d = dot q d ^ 2 := by ring
        _ ≤ sqnorm q * sqnorm d := dot_sq_le q d

theorem df_le_length (textsL : List String) (t : String) :
    df textsL t ≤ textsL.length := List.length_filter_le _ _

theorem idfWeight_nonneg (lnq : ℚ → ℚ) (hln : ∀ x : ℚ, 1 ≤ x → 0 ≤ lnq x)
    (textsL : List String) (t : String) :
    0 ≤ idfWeight lnq textsL.length (df textsL t) := by
  unfold idfWeight
  have harg : (1 : ℚ) ≤ (1 + (textsL.length : ℚ)) / (1 + (df textsL t : ℚ)) := by
    rw [one_le_div (by positivity)]
    have := df_le_length textsL t
    have hc : (df textsL t : ℚ) ≤ (textsL.length : ℚ) := by exact_mod_cast this
    linarith
  have := hln _ harg
  linarith

theorem transform_entry_nonneg (lnq : ℚ → ℚ) (hln : ∀ x : ℚ, 1 ≤ x → 0 ≤ lnq x)
    (textsL : List String) (text : String) :
    ∀ x ∈ transform (fit lnq textsL) text, 0 ≤ x := by
  intro x hx
  obtain ⟨p, hp, rfl⟩ := List.mem_map.mp hx
  have h2 := (List.of_mem_zip hp).2
  simp only [fit] at h2
  obtain ⟨t, _, heq⟩ := List.mem_map.mp h2
  rw [← heq]
  exact mul_nonneg (by positivity) (idfWeight_nonneg lnq hln textsL t)

/-- Claim C7 (confirmed): every score attached to a search result lies in
[0, 1].  Scores are represented by the exact rational surrogate
`simKey = sim * |sim|` of the float cosine `sim`, which lies in [0, 1] iff
`sim` does; the zero-norm case is defined to be 0 rather than dividing by
zero, and all values are finite rationals, so no NaN can arise.  The
hypothesis on `lnq` is the only property of the natural logarithm used:
it is nonnegative on arguments of at least 1. -/
theorem C7_theorem (lnq : ℚ → ℚ) (st : DocumentStore) (q : String) (k now : ℕ)
    (hln : ∀ x : ℚ, 1 ≤ x → 0 ≤ lnq x) (hre : Reachable lnq st) (r : ScoredDoc)
    (hr : r ∈ (DocumentStore.search st q k now).2) :
    0 ≤ r.score ∧ r.score ≤ 1 := by
  by_cases hg : st.documents = [] ∨ st.document_vectors = none
  · rw [search_of_guard st q k now hg] at hr
    simp at hr
  · push_neg at hg
    obtain ⟨hsv_i, hsv_v, hsv_m⟩ := synced_of_reachable_ne lnq st hre hg.1
    rw [search_of_active st q k now hg.1 hg.2] at hr
    simp only [] at hr
    rw [buildResults_eq] at hr
    obtain ⟨i, hi, rfl⟩ := List.mem_map.mp hr
    show 0 ≤ ((st.document_vectors.getD []).map
        (fun dv => simKey (transform (st.vectorizer.getD ⟨[], []⟩) q) dv)).getD i 0
      ∧ ((st.document_vectors.getD []).map
        (fun dv => simKey (transform (st.vectorizer.getD ⟨[], []⟩) q) dv)).getD i 0 ≤ 1
    have hall : ∀ s ∈ (st.document_vectors.getD []).map
        (fun dv => simKey (transform (st.vectorizer.getD ⟨[], []⟩) q) dv),
        0 ≤ s ∧ s ≤ 1 := by
      intro s hs
      obtain ⟨dv, hdv, rfl⟩ := List.mem_map.mp hs
      have hq : ∀ x ∈ transform (st.vectorizer.getD ⟨[], []⟩) q, 0 ≤ x := by
        rw [hsv_v, Option.getD_some]
        exact transform_entry_nonneg lnq hln _ q
      have hd : ∀ x ∈ dv, 0 ≤ x := by
        rw [hsv_m, Option.getD_some] at hdv
        obtain ⟨text, _, rfl⟩ := List.mem_map.mp hdv
        exact transform_entry_nonneg lnq hln _ text
      exact simKey_bounds _ _ hq hd
    rcases getD_mem_or ((st.document_vectors.getD []).map
        (fun dv => simKey (transform (st.vectorizer.getD ⟨[], []⟩) q) dv)) i with hm | hz
    · exact hall _ hm
    · rw [hz]
      exact ⟨le_refl 0, by norm_num⟩

/-- Claim C7, witness: the concrete result of a one-document search, with
the identically-zero logarithm stand-in (which is nonnegative everywhere)
and the concrete reachability chain. -/
theorem C7_witness :
    (0:ℚ) ≤ (ScoredDoc.mk ⟨"d1", "t1", "xx yy", [], 0⟩ (1/2)).score
    ∧ (ScoredDoc.mk ⟨"d1", "t1", "xx yy", [], 0⟩ (1/2)).score ≤ 1 :=
  C7_theorem lnq0 stOne "xx" 10 7 (fun _ _ => le_refl 0) (Reachable.add Reachable.init)
    (ScoredDoc.mk ⟨"d1", "t1", "xx yy", [], 0⟩ (1/2)) (by decide)


theorem argsort_sorted (sims : List ℚ) : (argsort sims).Pairwise (rankLE sims) :=
  List.sorted_insertionSort (rankLE sims) (List.range sims.length)

theorem argsort_perm (sims : List ℚ) :
    List.Perm (argsort sims) (List.range sims.length) :=
  List.perm_insertionSort (rankLE sims) (List.range sims.length)

theorem argsort_nodup (sims : List ℚ) : (argsort sims).Nodup :=
  ((argsort_perm sims).nodup_iff).mpr (List.nodup_range sims.length)

theorem argsort_mem (sims : List ℚ) (i : ℕ) (h : i ∈ argsort sims) :
    i < sims.length := by
  have := (argsort_perm sims).mem_iff.mp h
  simpa using this

theorem argsort_pairwise_lt (sims : List ℚ) :
    (argsort sims).Pairwise (rankLT sims) := by
  have h1 := argsort_sorted sims
  have h2 : (argsort sims).Pairwise (fun a b => a ≠ b) := argsort_nodup sims
  refine (h1.and h2).imp ?_
  rintro a b ⟨hle, hne⟩
  rcases hle with h | ⟨h, hle'⟩
  · exact Or.inl h
  · exact Or.inr ⟨h, lt_of_le_of_ne hle' hne⟩

theorem top_facts (sims : List ℚ) (k : ℕ) (hk : k ≠ 0) :
    ((lastSlice k (argsort sims)).reverse.Pairwise (fun a b => rankLT sims b a))
    ∧ (lastSlice k (argsort sims)).reverse.length ≤ k
    ∧ ∀ i ∈ (lastSlice k (argsort sims)).reverse, i < sims.length := by
  unfold lastSlice
  rw [if_neg hk]
  refine ⟨?_, ?_, ?_⟩
  · rw [List.pairwise_reverse]
    exact (argsort_pairwise_lt sims).sublist (List.drop_sublist _ _)
  · rw [List.length_reverse, List.length_drop]
    omega
  · intro i hi
    rw [List.mem_reverse] at hi
    exact argsort_mem sims i ((List.drop_sublist _ _).mem hi)

theorem dictGet_id (l : List (String × Doc)) (hids : ∀ p ∈ l, p.2.id = p.1)
    (key : String) (hkey : key ∈ l.map Prod.fst) : (dictGet l key).id = key := by
  unfold dictGet
  rcases hfind : l.find? (fun p => p.1 == key) with _ | p
  · exfalso
    obtain ⟨p, hp, he⟩ := List.mem_map.mp hkey
    have := List.find?_eq_none.mp hfind p hp
    simp [he] at this
  · have h1 := List.find?_some hfind
    have h2 : p ∈ l := List.mem_of_find?_eq_some hfind
    rw [hfind]
    exact (hids p h2).trans (beq_iff_eq.mp h1)

theorem indexOf_getD_of_nodup (l : List String) (h : l.Nodup) (i : ℕ)
    (hi : i < l.length) : l.indexOf (l.getD i "") = i := by
  rw [List.getD_eq_getElem l "" hi]
  have hmem : l[i] ∈ l := List.getElem_mem hi
  have hlt : l.indexOf l[i] < l.length := List.indexOf_lt_length.mpr hmem
  have hix : l[l.indexOf l[i]] = l[i] := List.getElem_indexOf hlt
  exact (List.Nodup.getElem_inj_iff h).mp hix

theorem mkScored_id (st1 : DocumentStore) (sims : List ℚ) (i : ℕ)
    (hkeys : st1.document_ids = st1.documents.map Prod.fst)
    (hids : ∀ p ∈ st1.documents, p.2.id = p.1)
    (hi : i < st1.document_ids.length) :
    (mkScored st1 sims i).doc.id = st1.document_ids.getD i "" := by
  unfold mkScored
  apply dictGet_id st1.documents hids
  rw [← hkeys, List.getD_eq_getElem _ _ hi]
  exact List.getElem_mem hi

theorem laterFirst_congr (st st' : DocumentStore)
    (h : st'.document_ids = st.document_ids) : laterFirst st' = laterFirst st := by
  funext a b
  unfold laterFirst
  rw [h]

theorem results_pairwise_generic (st1 : DocumentStore) (sims : List ℚ) (k : ℕ)
    (hk : k ≠ 0) (hnd : st1.document_ids.Nodup)
    (hkeys : st1.document_ids = st1.documents.map Prod.fst)
    (hids : ∀ p ∈ st1.documents, p.2.id = p.1)
    (hlen : sims.length = st1.document_ids.length) :
    (buildResults st1 sims ((lastSlice k (argsort sims)).reverse)).Pairwise (laterFirst st1)
    ∧ (buildResults st1 sims ((lastSlice k (argsort sims)).reverse)).length ≤ k := by
  obtain ⟨htop_pw, htop_len, htop_mem⟩ := top_facts sims k hk
  rw [buildResults_eq]
  constructor
  · rw [List.pairwise_map]
    have hpw : ((lastSlice k (argsort sims)).reverse.filter
        (fun i => decide (0 < sims.getD i 0))).Pairwise (fun a b => rankLT sims b a) :=
      htop_pw.sublist (List.filter_sublist _)
    refine hpw.imp_of_mem ?_
    intro a b ha hb hab
    have ha' : a < st1.document_ids.length :=
      hlen ▸ htop_mem a (List.mem_of_mem_filter ha)
    have hb' : b < st1.document_ids.length :=
      hlen ▸ htop_mem b (List.mem_of_mem_filter hb)
    have hida : (mkScored st1 sims a).doc.id = st1.document_ids.getD a "" :=
      mkScored_id st1 sims a hkeys hids ha'
    have hidb : (mkScored st1 sims b).doc.id = st1.document_ids.getD b "" :=
      mkScored_id st1 sims b hkeys hids hb'
    rcases hab with hlt | ⟨heq, hblt⟩
    · exact Or.inl hlt
    · refine Or.inr ⟨heq, ?_⟩
      rw [hida, hidb, indexOf_getD_of_nodup _ hnd a ha', indexOf_getD_of_nodup _ hnd b hb']
      exact hblt
  · rw [List.length_map]
    exact le_trans (List.length_filter_le _ _) htop_len

theorem search_of_active_mid (st : DocumentStore) (q : String) (k now : ℕ)
    (h1 : st.documents ≠ []) (h2 : st.document_vectors ≠ none) :
    DocumentStore.search st q k now =
      (searchMid st q now,
       buildResults (searchMid st q now) (searchSims st q)
         ((lastSlice k (argsort (searchSims st q))).reverse)) :=
  search_of_active st q k now h1 h2

